import Mathlib

set_option maxHeartbeats 1000000

/-!
Shallow embedding of the sandfall falling-sand simulation core (src/main.rs):
the occupancy grid, the grain list, the active-region bounding box, the
spawn sampler, the per-frame settling update, and the bottom-centre drain.

The rendering/window code (render.rs and the minifb calls) is presentation
glue and is out of scope; the embedding covers the state mutated by the
frame loop: `grid`, `grains`, `min_x`/`max_x`/`min_y`/`max_y`, and the RNG,
modelled as a stream of already-floored draws `stream : Nat -> Nat` together
with a cursor counting calls to `rng.uni()`.
-/

/-- Configuration constants fixed at startup: `WIDTH`, `HEIGHT`,
`SPAWN_RADIUS`, `TRIES_PER_FRAME`, `DRAIN_HALF` in the source. -/
structure Cfg where
  W : Nat
  H : Nat
  spawnRadius : Nat
  triesPerFrame : Nat
  drainHalf : Nat
deriving DecidableEq, Repr

/-- The constants of the program: `WIDTH = 1200`, `HEIGHT = 800`,
`SPAWN_RADIUS = 6`, `TRIES_PER_FRAME = 25`, `DRAIN_HALF = 50`. -/
def sandCfg : Cfg := ⟨1200, 800, 6, 25, 50⟩

/-- `DRAIN_X = WIDTH / 2` (integer division, the grid's horizontal centre). -/
def Cfg.drainX (c : Cfg) : Nat := c.W / 2

/-- `DRAIN_Y = HEIGHT - 1` (the bottom-most row). -/
def Cfg.drainY (c : Cfg) : Nat := c.H - 1

/-- A sand grain, identified solely by its cell coordinate (`struct Grain`). -/
structure Grain where
  x : Nat
  y : Nat
deriving DecidableEq, Repr

/-- The occupancy grid `grid[y][x]`, a `WIDTH x HEIGHT` boolean map; modelled
as a function, read and written only at in-bounds coordinates. -/
abbrev GridT : Type := Nat → Nat → Bool

/-- Write `grid[y][x] = v`. -/
def gridSet (g : GridT) (x y : Nat) (v : Bool) : GridT :=
  fun y' x' => if y' = y ∧ x' = x then v else g y' x'

/-- The `in_bounds` closure: `x >= 0 && y >= 0 && x < WIDTH && y < HEIGHT`. -/
def in_bounds (c : Cfg) (x y : Int) : Bool :=
  decide (0 ≤ x) && decide (0 ≤ y) && decide (x < (c.W : Int)) && decide (y < (c.H : Int))

/-- The four mutable bounds `min_x`, `max_x`, `min_y`, `max_y` (also reused
for the per-frame accumulator `new_min_x` … `new_max_y`). -/
structure Rect where
  min_x : Nat
  max_x : Nat
  min_y : Nat
  max_y : Nat
deriving DecidableEq, Repr

/-- Expand a min/max bounding box to include `(x, y)`: the four `if` updates
that appear in the spawn phase, the physics accumulator and the drain. -/
def rectExtend (r : Rect) (x y : Nat) : Rect :=
  { min_x := if x < r.min_x then x else r.min_x
    max_x := if x > r.max_x then x else r.max_x
    min_y := if y < r.min_y then y else r.min_y
    max_y := if y > r.max_y then y else r.max_y }

/-- The simulation state owned by the frame loop. -/
structure SimState where
  grid : GridT
  grains : List Grain
  region : Rect

/-- Initial state: empty grid and grain list,
`min_x = WIDTH, max_x = 0, min_y = HEIGHT, max_y = 0`. -/
def initState (c : Cfg) : SimState :=
  { grid := fun _ _ => false, grains := [], region := ⟨c.W, 0, c.H, 0⟩ }

/-- The rejection-sampling `loop` of one spawn attempt: draw
`dx = floor(uni()*span) - SPAWN_RADIUS` and likewise `dy` (two consecutive
draws from the stream), redraw (`continue`) while `dx*dx + dy*dy >
SPAWN_RADIUS^2`, and hand back the first disc-valid offset together with the
new stream cursor. `fuel` bounds the number of iterations modelled; the
source loop has no such bound and simply keeps drawing. -/
def rejSample (c : Cfg) (stream : Nat → Nat) : Nat → Nat → Option (Int × Int) × Nat
  | 0, i => (none, i)
  | fuel+1, i =>
      let dx : Int := (stream i : Int) - (c.spawnRadius : Int)
      let dy : Int := (stream (i+1) : Int) - (c.spawnRadius : Int)
      if dx * dx + dy * dy > ((c.spawnRadius * c.spawnRadius : Nat) : Int) then
        rejSample c stream fuel (i + 2)
      else
        (some (dx, dy), i + 2)

/-- The placement trial run once per attempt after an accepted draw `d`:
compute the candidate `(cx+dx, cy+dy)`; if it is in bounds and the grid is
free there, mark the grid, push the grain, and expand the active region to
include it; otherwise do nothing. -/
def spawnTry (c : Cfg) (cx cy : Int) (d : Int × Int) (s : SimState) : SimState :=
  let x := cx + d.1
  let y := cy + d.2
  if in_bounds c x y && !(s.grid y.toNat x.toNat) then
    { grid := gridSet s.grid x.toNat y.toNat true
      grains := s.grains ++ [⟨x.toNat, y.toNat⟩]
      region := rectExtend s.region x.toNat y.toNat }
  else s

/-- The spawn phase body: `for _ in 0..TRIES_PER_FRAME` independent attempts,
each one rejection-sample followed by one placement trial. -/
def spawnLoop (c : Cfg) (stream : Nat → Nat) (fuel : Nat) (cx cy : Int) :
    Nat → SimState → Nat → SimState × Nat
  | 0, s, i => (s, i)
  | n+1, s, i =>
      match rejSample c stream fuel i with
      | (none, i') => spawnLoop c stream fuel cx cy n s i'
      | (some d, i') => spawnLoop c stream fuel cx cy n (spawnTry c cx cy d s) i'

/-- Working state of the physics pass: the grid, the grain list, and the
`new_min_x` … `new_max_y` accumulator. -/
structure PhysState where
  grid : GridT
  grains : List Grain
  acc : Rect

/-- The three fall targets in the source's order: straight down, down-left,
down-right. -/
def targets (x y : Nat) : List (Int × Int) :=
  [((x : Int), (y : Int) + 1), ((x : Int) - 1, (y : Int) + 1), ((x : Int) + 1, (y : Int) + 1)]

/-- One target is taken iff `in_bounds(nx, ny) && !grid[ny][nx]`. -/
def avail (c : Cfg) (grid : GridT) (t : Int × Int) : Bool :=
  in_bounds c t.1 t.2 && !(grid t.2.toNat t.1.toNat)

/-- The body of the physics loop at index `idx`: skip the grain if it lies
outside the active region `R`; otherwise move it to the first available
target (the `for … break` over `targets`), clearing the old cell, setting
the new one, storing the new coordinate, and extending the accumulator. -/
def stepIdx (c : Cfg) (R : Rect) (ps : PhysState) (idx : Nat) : PhysState :=
  let g := ps.grains.getD idx ⟨0, 0⟩
  if g.x < R.min_x ∨ g.x > R.max_x ∨ g.y < R.min_y ∨ g.y > R.max_y then ps
  else
    match (targets g.x g.y).find? (avail c ps.grid) with
    | none => ps
    | some t =>
        { grid := gridSet (gridSet ps.grid g.x g.y false) t.1.toNat t.2.toNat true
          grains := ps.grains.set idx ⟨t.1.toNat, t.2.toNat⟩
          acc := rectExtend ps.acc t.1.toNat t.2.toNat }

/-- `for idx in (0..grains.len()).rev()`: process indices `k-1, k-2, …, 0`. -/
def physicsAux (c : Cfg) (R : Rect) : Nat → PhysState → PhysState
  | 0, ps => ps
  | k+1, ps => physicsAux c R k (stepIdx c R ps k)

/-- The physics-pass starting state of a frame: the current grid and grains
with the accumulator initialised to
`new_min_x = WIDTH, new_max_x = 0, new_min_y = HEIGHT, new_max_y = 0`. -/
def initPhys (c : Cfg) (s : SimState) : PhysState :=
  { grid := s.grid, grains := s.grains, acc := ⟨c.W, 0, c.H, 0⟩ }

/-- The physics phase: run the pass over every index (newest grain first),
then, when the accumulator is non-degenerate on both axes, replace the
active region by the accumulator expanded by 2 (saturating at 0) and clamped
to `WIDTH-1` / `HEIGHT-1`; otherwise keep the old region. -/
def physicsPhase (c : Cfg) (s : SimState) : SimState :=
  let ps := physicsAux c s.region s.grains.length (initPhys c s)
  if ps.acc.min_x ≤ ps.acc.max_x ∧ ps.acc.min_y ≤ ps.acc.max_y then
    { grid := ps.grid, grains := ps.grains
      region := ⟨ps.acc.min_x - 2, min (ps.acc.max_x + 2) (c.W - 1),
                 ps.acc.min_y - 2, min (ps.acc.max_y + 2) (c.H - 1)⟩ }
  else
    { grid := ps.grid, grains := ps.grains, region := s.region }

/-- The drain-removal test inside `grains.retain`: the grain sits exactly on
the bottom row with `start <= x <= end`. -/
def drainInside (dStart dEnd dy : Nat) (g : Grain) : Bool :=
  decide (g.y = dy) && decide (dStart ≤ g.x) && decide (g.x ≤ dEnd)

/-- `grains.retain(…)` with its side effect: keep the grains not inside the
drain span, and for each removed grain expand the active region to include
its coordinate (the four `if` updates inside the closure). -/
def drainRetain (dStart dEnd dy : Nat) : List Grain → Rect → List Grain × Rect
  | [], r => ([], r)
  | g :: gs, r =>
      if drainInside dStart dEnd dy g then
        drainRetain dStart dEnd dy gs (rectExtend r g.x g.y)
      else
        let p := drainRetain dStart dEnd dy gs r
        (g :: p.1, p.2)

/-- The drain phase: clear `grid[DRAIN_Y][x]` for every `x` in
`start..=end` with `start = DRAIN_X.saturating_sub(DRAIN_HALF)` and
`end = min(DRAIN_X + DRAIN_HALF, WIDTH-1)`, then retain the grains outside
the span. -/
def drainPhase (c : Cfg) (s : SimState) : SimState :=
  let dStart := c.drainX - c.drainHalf
  let dEnd := min (c.drainX + c.drainHalf) (c.W - 1)
  let grid' : GridT := fun y x =>
    if y = c.drainY ∧ dStart ≤ x ∧ x ≤ dEnd then false else s.grid y x
  let p := drainRetain dStart dEnd c.drainY s.grains s.region
  { grid := grid', grains := p.1, region := p.2 }

/-- Per-frame external inputs: the optional mouse spawn point and the
drain-active flag (space bar held). -/
structure Input where
  spawnAt : Option (Int × Int)
  drainOn : Bool
deriving DecidableEq

/-- Phase 1 of a frame: spawn `TRIES_PER_FRAME` attempts at the mouse
position when the button is down, otherwise nothing. -/
def phase1 (c : Cfg) (stream : Nat → Nat) (fuel : Nat) (inp : Input) (s : SimState) (i : Nat) :
    SimState × Nat :=
  match inp.spawnAt with
  | some p => spawnLoop c stream fuel p.1 p.2 c.triesPerFrame s i
  | none => (s, i)

/-- Phase 3 of a frame: the drain, when the drain flag is held. -/
def phase3 (c : Cfg) (inp : Input) (s : SimState) : SimState :=
  if inp.drainOn then drainPhase c s else s

/-- One frame of the loop: spawn, physics, drain (rendering out of scope). -/
def frame (c : Cfg) (stream : Nat → Nat) (fuel : Nat) (inp : Input) (s : SimState) (i : Nat) :
    SimState × Nat :=
  let p := phase1 c stream fuel inp s i
  (phase3 c inp (physicsPhase c p.1), p.2)

/-- Run the frame loop over a list of per-frame inputs. -/
def run (c : Cfg) (stream : Nat → Nat) (fuel : Nat) : List Input → SimState → Nat → SimState × Nat
  | [], s, i => (s, i)
  | inp :: rest, s, i =>
      let p := frame c stream fuel inp s i
      run c stream fuel rest p.1 p.2

/-! ### Spec-side settling definitions (for the refinement claim only) -/

/-- Written from the spec's words: "Available" means the target coordinate is
in bounds and the Grid marks it unoccupied. -/
def specAvailable (c : Cfg) (grid : GridT) (p : Int × Int) : Bool :=
  in_bounds c p.1 p.2 && !(grid p.2.toNat p.1.toNat)

/-- Written from the spec's words: attempt movement into the first available
cell, tried strictly in the priority order straight down `(x, y+1)`, then
down-left `(x-1, y+1)`, then down-right `(x+1, y+1)`. -/
def specMove (c : Cfg) (grid : GridT) (x y : Nat) : Option (Int × Int) :=
  if specAvailable c grid ((x : Int), (y : Int) + 1) then some ((x : Int), (y : Int) + 1)
  else if specAvailable c grid ((x : Int) - 1, (y : Int) + 1) then
    some ((x : Int) - 1, (y : Int) + 1)
  else if specAvailable c grid ((x : Int) + 1, (y : Int) + 1) then
    some ((x : Int) + 1, (y : Int) + 1)
  else none

/-- Written from the spec's words: processing of one particle of the settling
pass — skip it when it lies outside the active region, otherwise move it to
the first available target (none available: it does not move). -/
def specStep (c : Cfg) (R : Rect) (ps : PhysState) (k : Nat) : PhysState :=
  let g := ps.grains.getD k ⟨0, 0⟩
  if g.x < R.min_x ∨ g.x > R.max_x ∨ g.y < R.min_y ∨ g.y > R.max_y then ps
  else
    match specMove c ps.grid g.x g.y with
    | none => ps
    | some t =>
        { grid := gridSet (gridSet ps.grid g.x g.y false) t.1.toNat t.2.toNat true
          grains := ps.grains.set k ⟨t.1.toNat, t.2.toNat⟩
          acc := rectExtend ps.acc t.1.toNat t.2.toNat }

/-! ### Instrumentation: the moved coordinates recorded by the accumulator -/

/-- The new coordinate recorded into the accumulator when the grain at index
`k` moves; `[]` when it is skipped or has no available target. -/
def movedAt (c : Cfg) (R : Rect) (ps : PhysState) (k : Nat) : List (Nat × Nat) :=
  let g := ps.grains.getD k ⟨0, 0⟩
  if g.x < R.min_x ∨ g.x > R.max_x ∨ g.y < R.min_y ∨ g.y > R.max_y then []
  else
    match (targets g.x g.y).find? (avail c ps.grid) with
    | none => []
    | some t => [(t.1.toNat, t.2.toNat)]

/-- The physics pass together with the list of recorded moved coordinates,
in processing order. -/
def physRun (c : Cfg) (R : Rect) : Nat → PhysState → PhysState × List (Nat × Nat)
  | 0, ps => (ps, [])
  | k+1, ps =>
      let p := physRun c R k (stepIdx c R ps k)
      (p.1, movedAt c R ps k ++ p.2)

/-- The new coordinates of the particles that move during the settling step. -/
def physMoves (c : Cfg) (s : SimState) : List (Nat × Nat) :=
  (physRun c s.region s.grains.length (initPhys c s)).2

/-- Fold a list of coordinates into a bounding box. -/
def foldExtend (r : Rect) (l : List (Nat × Nat)) : Rect :=
  l.foldl (fun a p => rectExtend a p.1 p.2) r

/-- `v` is the least element of `l`. -/
def IsMinOf (l : List Nat) (v : Nat) : Prop := v ∈ l ∧ ∀ z ∈ l, v ≤ z

/-- `v` is the greatest element of `l`. -/
def IsMaxOf (l : List Nat) (v : Nat) : Prop := v ∈ l ∧ ∀ z ∈ l, z ≤ v

/-! ### Invariants -/

/-- An in-bounds cell is marked occupied iff some grain occupies it. -/
def ConsistentMem (c : Cfg) (grid : GridT) (gs : List Grain) : Prop :=
  ∀ x, x < c.W → ∀ y, y < c.H → (grid y x = true ↔ (⟨x, y⟩ : Grain) ∈ gs)

/-- Every grain's coordinate lies within `[0, W) x [0, H)`. -/
def InBoundsAll (c : Cfg) (gs : List Grain) : Prop :=
  ∀ g ∈ gs, g.x < c.W ∧ g.y < c.H

/-- The joint Grid/Particle Set invariant: the grid matches the grain list,
no two grains coincide, and every grain is in bounds. -/
def StateInv (c : Cfg) (s : SimState) : Prop :=
  ConsistentMem c s.grid s.grains ∧ s.grains.Nodup ∧ InBoundsAll c s.grains

/-- The joint invariant during the physics pass. -/
def PhysInv (c : Cfg) (ps : PhysState) : Prop :=
  ConsistentMem c ps.grid ps.grains ∧ ps.grains.Nodup ∧ InBoundsAll c ps.grains

/-- The claim-level consistency property: an in-bounds cell is marked
occupied iff exactly one grain occupies it, and no two grains share a cell. -/
def gridCountOk (c : Cfg) (s : SimState) : Prop :=
  (∀ x, x < c.W → ∀ y, y < c.H →
    (s.grid y x = true ↔ s.grains.countP (fun g => g.x == x && g.y == y) = 1))
  ∧ s.grains.Nodup

/-- The grain lies strictly outside the bounding box `R`. -/
def outsideRect (R : Rect) (g : Grain) : Prop :=
  g.x < R.min_x ∨ g.x > R.max_x ∨ g.y < R.min_y ∨ g.y > R.max_y

/-- The accepted-draw test of the rejection loop: the offset decoded from the
two raw draws `a`, `b` lies inside the spawn disc. -/
def discOk (c : Cfg) (a b : Nat) : Bool :=
  decide (((a : Int) - (c.spawnRadius : Int)) * ((a : Int) - (c.spawnRadius : Int)) +
          ((b : Int) - (c.spawnRadius : Int)) * ((b : Int) - (c.spawnRadius : Int)) ≤
          ((c.spawnRadius * c.spawnRadius : Nat) : Int))

/-! ### Claim conclusions stated as predicates -/

/-- C4's conclusion: when no particle moved the region is kept, and when at
least one moved it becomes the moved particles' bounding box expanded by 2
(saturating at 0) and clamped to `[0, W-1] x [0, H-1]`. -/
def C4Concl (c : Cfg) (s : SimState) : Prop :=
  (physMoves c s = [] → (physicsPhase c s).region = s.region)
  ∧ (physMoves c s ≠ [] → ∃ mnx mxx mny mxy,
      IsMinOf ((physMoves c s).map Prod.fst) mnx ∧
      IsMaxOf ((physMoves c s).map Prod.fst) mxx ∧
      IsMinOf ((physMoves c s).map Prod.snd) mny ∧
      IsMaxOf ((physMoves c s).map Prod.snd) mxy ∧
      (physicsPhase c s).region =
        ⟨mnx - 2, min (mxx + 2) (c.W - 1), mny - 2, min (mxy + 2) (c.H - 1)⟩)

/-- C5's conclusion: the drain clears the whole bottom-row span regardless of
occupancy, touches no other cell, removes exactly the grains inside the span,
and afterwards no grain sits on the bottom row within the span. -/
def C5Concl (c : Cfg) (s : SimState) : Prop :=
  (∀ x, c.drainX - c.drainHalf ≤ x → x ≤ min (c.drainX + c.drainHalf) (c.W - 1) →
    (drainPhase c s).grid c.drainY x = false)
  ∧ (∀ x y, ¬(y = c.drainY ∧ c.drainX - c.drainHalf ≤ x ∧
        x ≤ min (c.drainX + c.drainHalf) (c.W - 1)) →
      (drainPhase c s).grid y x = s.grid y x)
  ∧ (drainPhase c s).grains =
      s.grains.filter
        (fun g => !(drainInside (c.drainX - c.drainHalf)
          (min (c.drainX + c.drainHalf) (c.W - 1)) c.drainY g))
  ∧ (∀ g ∈ (drainPhase c s).grains,
      ¬(g.y = c.drainY ∧ c.drainX - c.drainHalf ≤ g.x ∧
        g.x ≤ min (c.drainX + c.drainHalf) (c.W - 1)))

/-- C6's amended conclusion: besides removing the in-span grains (and the
span's grid clears), the drain phase expands the active region to include
each removed grain's coordinate — the region is updated keyed off removal. -/
def C6Concl (c : Cfg) (s : SimState) : Prop :=
  (drainPhase c s).region =
    foldExtend s.region
      (((s.grains.filter (drainInside (c.drainX - c.drainHalf)
          (min (c.drainX + c.drainHalf) (c.W - 1)) c.drainY))).map (fun g => (g.x, g.y)))
  ∧ (drainPhase c s).grains =
      s.grains.filter
        (fun g => !(drainInside (c.drainX - c.drainHalf)
          (min (c.drainX + c.drainHalf) (c.W - 1)) c.drainY g))

/-- C9's conclusion: per invocation at most `TRIES_PER_FRAME` grains are
added and every added grain is in bounds; per attempt, an out-of-bounds or
occupied candidate is silently dropped with no state change, and a valid
candidate inserts exactly one grain, marks its cell, and expands the region. -/
def C9Concl (c : Cfg) (stream : Nat → Nat) (fuel : Nat) (cx cy : Int) (s : SimState) (i : Nat) :
    Prop :=
  ((spawnLoop c stream fuel cx cy c.triesPerFrame s i).1.grains.length ≤
    s.grains.length + c.triesPerFrame)
  ∧ (∀ g ∈ (spawnLoop c stream fuel cx cy c.triesPerFrame s i).1.grains,
      g ∈ s.grains ∨ (g.x < c.W ∧ g.y < c.H))
  ∧ (∀ (d : Int × Int) (s' : SimState),
      (in_bounds c (cx + d.1) (cy + d.2) && !(s'.grid (cy + d.2).toNat (cx + d.1).toNat)) = true →
      spawnTry c cx cy d s' =
        { grid := gridSet s'.grid (cx + d.1).toNat (cy + d.2).toNat true
          grains := s'.grains ++ [⟨(cx + d.1).toNat, (cy + d.2).toNat⟩]
          region := rectExtend s'.region (cx + d.1).toNat (cy + d.2).toNat })
  ∧ (∀ (d : Int × Int) (s' : SimState),
      (in_bounds c (cx + d.1) (cy + d.2) && !(s'.grid (cy + d.2).toNat (cx + d.1).toNat)) = false →
      spawnTry c cx cy d s' = s')

/-! ### Concrete instances used by counterexamples and witnesses -/

/-- A 5x3 grid with radius-0 spawning, one try, drain half-width 1. -/
def c6cfg : Cfg := ⟨5, 3, 0, 1, 1⟩

/-- One grain resting at the drain cell `(2, 2)`, active region `[0,1]x[0,1]`
not containing it. -/
def c6st : SimState :=
  { grid := fun y x => decide (y = 2 ∧ x = 2), grains := [⟨2, 2⟩], region := ⟨0, 1, 0, 1⟩ }

/-- A small 4x4 configuration for witnesses: radius 1, two tries, half 1. -/
def wCfg : Cfg := ⟨4, 4, 1, 2, 1⟩

/-- A witness state: one grain at `(1, 1)` above free space, region covering
the whole grid. -/
def wSt : SimState :=
  { grid := fun y x => decide (y = 1 ∧ x = 1), grains := [⟨1, 1⟩], region := ⟨0, 3, 0, 3⟩ }

instance (R : Rect) (g : Grain) : Decidable (outsideRect R g) := by
  unfold outsideRect; infer_instance

instance (c : Cfg) (grid : GridT) (gs : List Grain) : Decidable (ConsistentMem c grid gs) := by
  unfold ConsistentMem; infer_instance

instance (c : Cfg) (gs : List Grain) : Decidable (InBoundsAll c gs) := by
  unfold InBoundsAll; infer_instance

instance (c : Cfg) (s : SimState) : Decidable (StateInv c s) := by
  unfold StateInv; infer_instance

instance (c : Cfg) (s : SimState) : Decidable (gridCountOk c s) := by
  unfold gridCountOk; infer_instance

/-! ## List helper lemmas -/

theorem getD_eq_getElem {α : Type} {l : List α} {k : Nat} (hk : k < l.length) (d : α) :
    l.getD k d = l[k] := by
  simp [List.getD_eq_getElem?_getD, List.getElem?_eq_getElem hk]

theorem getD_set_ne {α : Type} (l : List α) {k j : Nat} (h : k ≠ j) (a d : α) :
    (l.set k a).getD j d = l.getD j d := by
  simp [List.getD_eq_getElem?_getD, List.getElem?_set_ne h]

theorem mem_set_of_ne_getElem {α : Type} :
    ∀ {l : List α} {k : Nat}, k < l.length → ∀ {a b : α},
      b ∈ l → (∀ hk : k < l.length, b ≠ l[k]) → b ∈ l.set k a
  | [], _, hk, _, _, hb, _ => absurd hb (List.not_mem_nil _)
  | x :: xs, 0, hk, a, b, hb, hne => by
      rcases List.mem_cons.1 hb with h | h
      · exact absurd h (hne hk)
      · exact List.mem_cons_of_mem _ h
  | x :: xs, k+1, hk, a, b, hb, hne => by
      rcases List.mem_cons.1 hb with h | h
      · exact h ▸ List.mem_cons_self _ _
      · exact List.mem_cons_of_mem _
          (mem_set_of_ne_getElem (Nat.lt_of_succ_lt_succ hk) h
            (fun hk' => hne (Nat.succ_lt_succ hk')))

theorem getElem_not_mem_set {α : Type} :
    ∀ {l : List α} {k : Nat} (hk : k < l.length), l.Nodup → ∀ {a : α},
      a ≠ l[k] → l[k] ∉ l.set k a
  | [], _, hk, _, _, _ => by simp at hk
  | x :: xs, 0, hk, hn, a, ha => by
      intro hmem
      rcases List.mem_cons.1 hmem with h | h
      · exact ha h.symm
      · exact (List.nodup_cons.1 hn).1 h
  | x :: xs, k+1, hk, hn, a, ha => by
      intro hmem
      rcases List.mem_cons.1 hmem with h | h
      · exact (List.nodup_cons.1 hn).1 (h ▸ List.getElem_mem (Nat.lt_of_succ_lt_succ hk))
      · exact getElem_not_mem_set (Nat.lt_of_succ_lt_succ hk) (List.nodup_cons.1 hn).2 ha h

theorem self_mem_set {α : Type} {l : List α} {k : Nat} (hk : k < l.length) (a : α) :
    a ∈ l.set k a := by
  have h : k < (l.set k a).length := by simpa using hk
  have hm := List.getElem_mem h
  rwa [List.getElem_set_self h] at hm

/-! ## C3: the settling pass equals the spec's reverse-order first-available walk -/

theorem specAvailable_eq_avail (c : Cfg) (grid : GridT) (p : Int × Int) :
    specAvailable c grid p = avail c grid p := rfl

theorem find?_targets_eq_specMove (c : Cfg) (grid : GridT) (x y : Nat) :
    (targets x y).find? (avail c grid) = specMove c grid x y := by
  unfold targets specMove
  simp only [specAvailable_eq_avail]
  split
  next h1 => simp [List.find?, h1]
  next h1 =>
    rw [Bool.not_eq_true] at h1
    split
    next h2 => simp [List.find?, h1, h2]
    next h2 =>
      rw [Bool.not_eq_true] at h2
      split
      next h3 => simp [List.find?, h1, h2, h3]
      next h3 =>
        rw [Bool.not_eq_true] at h3
        simp [List.find?, h1, h2, h3]

theorem stepIdx_eq_specStep (c : Cfg) (R : Rect) (ps : PhysState) (k : Nat) :
    stepIdx c R ps k = specStep c R ps k := by
  simp only [stepIdx, specStep, find?_targets_eq_specMove]

/-- C3: the settling step traverses the grain list in reverse insertion order
(index `n-1` first, i.e. newest grain first), and each non-skipped grain
moves to the first available target tried in the order straight down,
down-left, down-right, a target being available iff it is in bounds and
unoccupied; with no available target the grain stays. The code-side pass
`physicsAux` equals the spec-side fold of `specStep` (written from the
spec's words) over the reversed index list. -/
theorem sandfall_C3 (c : Cfg) (R : Rect) (n : Nat) (ps : PhysState) :
    physicsAux c R n ps = ((List.range n).reverse).foldl (specStep c R) ps := by
  induction n generalizing ps with
  | zero => rfl
  | succ m ih =>
      rw [physicsAux, List.range_succ, List.reverse_append]
      simp only [List.reverse_cons, List.reverse_nil, List.nil_append, List.singleton_append,
        List.foldl_cons]
      rw [stepIdx_eq_specStep]
      exact ih _

/-! ## C2: grains strictly outside the active region do not move -/

theorem stepIdx_getD_ne (c : Cfg) (R : Rect) (ps : PhysState) {k j : Nat} (h : k ≠ j) :
    (stepIdx c R ps k).grains.getD j ⟨0, 0⟩ = ps.grains.getD j ⟨0, 0⟩ := by
  simp only [stepIdx]
  split
  · rfl
  · split
    · rfl
    · exact getD_set_ne _ h _ _

theorem stepIdx_length (c : Cfg) (R : Rect) (ps : PhysState) (k : Nat) :
    (stepIdx c R ps k).grains.length = ps.grains.length := by
  simp only [stepIdx]
  split
  · rfl
  · split
    · rfl
    · exact List.length_set _ _ _

theorem physicsAux_length (c : Cfg) (R : Rect) :
    ∀ (n : Nat) (ps : PhysState), (physicsAux c R n ps).grains.length = ps.grains.length
  | 0, ps => rfl
  | n+1, ps => (physicsAux_length c R n _).trans (stepIdx_length c R ps n)

theorem physicsAux_getD_ge (c : Cfg) (R : Rect) :
    ∀ (n : Nat) (ps : PhysState) (j : Nat), n ≤ j →
      (physicsAux c R n ps).grains.getD j ⟨0, 0⟩ = ps.grains.getD j ⟨0, 0⟩
  | 0, ps, j, _ => rfl
  | n+1, ps, j, h =>
      (physicsAux_getD_ge c R n _ j (Nat.le_of_succ_le h)).trans
        (stepIdx_getD_ne c R ps (Nat.ne_of_lt (Nat.lt_of_lt_of_le (Nat.lt_succ_self n) h)))

theorem stepIdx_outside (c : Cfg) (R : Rect) (ps : PhysState) (k : Nat)
    (h : outsideRect R (ps.grains.getD k ⟨0, 0⟩)) : stepIdx c R ps k = ps := by
  simp only [stepIdx]
  exact if_pos h

theorem physicsAux_getD_outside (c : Cfg) (R : Rect) :
    ∀ (n : Nat) (ps : PhysState) (j : Nat), outsideRect R (ps.grains.getD j ⟨0, 0⟩) →
      (physicsAux c R n ps).grains.getD j ⟨0, 0⟩ = ps.grains.getD j ⟨0, 0⟩
  | 0, _, _, _ => rfl
  | n+1, ps, j, h => by
      by_cases hj : n = j
      · subst hj
        rw [physicsAux, stepIdx_outside c R ps n h]
        exact physicsAux_getD_ge c R n ps n (Nat.le_refl n)
      · have hne := stepIdx_getD_ne c R ps (k := n) (j := j) hj
        rw [physicsAux, physicsAux_getD_outside c R n (stepIdx c R ps n) j (by rw [hne]; exact h),
          hne]

theorem physicsPhase_grains (c : Cfg) (s : SimState) :
    (physicsPhase c s).grains = (physicsAux c s.region s.grains.length (initPhys c s)).grains := by
  simp only [physicsPhase, initPhys]
  split <;> rfl

/-- C2: a grain whose coordinate lies strictly outside the active region at
the start of the settling step is skipped and keeps its coordinate through
the whole step (the grain list's length is also unchanged), so such grains
stay stationary until a spawn or drain concerns them. -/
theorem sandfall_C2 (c : Cfg) (s : SimState) (j : Nat)
    (h : outsideRect s.region (s.grains.getD j ⟨0, 0⟩)) :
    (physicsPhase c s).grains.getD j ⟨0, 0⟩ = s.grains.getD j ⟨0, 0⟩ ∧
    (physicsPhase c s).grains.length = s.grains.length := by
  rw [physicsPhase_grains]
  exact ⟨physicsAux_getD_outside c s.region s.grains.length (initPhys c s) j h,
    physicsAux_length c s.region s.grains.length (initPhys c s)⟩

/-- Witness for C2 at a concrete input: the grain at `(2, 2)` lies outside
the region `[0,1]x[0,1]` and is unchanged by the settling step. -/
theorem sandfall_C2_witness :
    (physicsPhase wCfg c6st).grains.getD 0 ⟨0, 0⟩ = c6st.grains.getD 0 ⟨0, 0⟩ ∧
    (physicsPhase wCfg c6st).grains.length = c6st.grains.length :=
  sandfall_C2 wCfg c6st 0 (by decide)

/-- Witness for C3 at a concrete input. -/
theorem sandfall_C3_witness :
    physicsAux wCfg wSt.region 1 (initPhys wCfg wSt) =
      ((List.range 1).reverse).foldl (specStep wCfg wSt.region) (initPhys wCfg wSt) :=
  sandfall_C3 wCfg wSt.region 1 (initPhys wCfg wSt)

/-! ## Drain lemmas (C5, C6) -/

theorem drainRetain_eq (dStart dEnd dy : Nat) :
    ∀ (gs : List Grain) (r : Rect),
      drainRetain dStart dEnd dy gs r =
        (gs.filter (fun g => !(drainInside dStart dEnd dy g)),
         foldExtend r ((gs.filter (drainInside dStart dEnd dy)).map (fun g => (g.x, g.y))))
  | [], _ => rfl
  | g :: gs, r => by
      simp only [drainRetain]
      by_cases h : drainInside dStart dEnd dy g = true
      · rw [if_pos h, drainRetain_eq dStart dEnd dy gs (rectExtend r g.x g.y)]
        simp [List.filter_cons, h, foldExtend]
      · rw [if_neg h]
        rw [Bool.not_eq_true] at h
        rw [drainRetain_eq dStart dEnd dy gs r]
        simp [List.filter_cons, h]

theorem drainPhase_grains (c : Cfg) (s : SimState) :
    (drainPhase c s).grains =
      s.grains.filter
        (fun g => !(drainInside (c.drainX - c.drainHalf)
          (min (c.drainX + c.drainHalf) (c.W - 1)) c.drainY g)) := by
  simp only [drainPhase, drainRetain_eq]

theorem drainPhase_region (c : Cfg) (s : SimState) :
    (drainPhase c s).region =
      foldExtend s.region
        ((s.grains.filter (drainInside (c.drainX - c.drainHalf)
          (min (c.drainX + c.drainHalf) (c.W - 1)) c.drainY)).map (fun g => (g.x, g.y))) := by
  simp only [drainPhase, drainRetain_eq]

/-- C5: when the drain is active, the drain phase clears the grid at every
bottom-row cell of the span `[DRAIN_X - DRAIN_HALF, min(DRAIN_X + DRAIN_HALF,
WIDTH-1)]` regardless of occupancy, changes no other cell, removes from the
grain list exactly the grains inside the span (others kept, in order), and
afterwards no grain sits on the bottom row within the span. -/
theorem sandfall_C5 (c : Cfg) (s : SimState) : C5Concl c s := by
  refine ⟨?_, ?_, drainPhase_grains c s, ?_⟩
  · intro x h1 h2
    simp only [drainPhase]
    exact if_pos ⟨trivial, h1, h2⟩
  · intro x y h
    simp only [drainPhase]
    exact if_neg h
  · intro g hg hin
    rw [drainPhase_grains] at hg
    have hf := List.of_mem_filter hg
    simp only [drainInside, hin.1, hin.2.1, hin.2.2, decide_True, Bool.and_self,
      Bool.not_true] at hf
    exact absurd hf (by simp)

/-- Witness for C5 at a concrete input. -/
theorem sandfall_C5_witness : C5Concl c6cfg c6st := sandfall_C5 c6cfg c6st

/-- Counterexample to C6 as stated: with one grain resting at the drain cell
`(2, 2)` and the active region `[0,1]x[0,1]`, a drain-active frame changes
the active region (it expands it to cover the removed grain), so the drain
phase does not leave the region unchanged. -/
theorem sandfall_C6_cex : (drainPhase c6cfg c6st).region ≠ c6st.region := by decide

/-- C6 amended: removing a particle during the drain phase has exactly one
side effect beyond deleting it and the span's grid clears — the active
region is expanded to include each removed particle's coordinate (a
bounds update keyed off removal). -/
theorem sandfall_C6_amended (c : Cfg) (s : SimState) : C6Concl c s :=
  ⟨drainPhase_region c s, drainPhase_grains c s⟩

/-- Witness for the amended C6 at a concrete input. -/
theorem sandfall_C6_amended_witness : C6Concl c6cfg c6st := sandfall_C6_amended c6cfg c6st

/-! ## Spawn lemmas (C9, C10) -/

theorem spawnTry_pos (c : Cfg) (cx cy : Int) (d : Int × Int) (s' : SimState)
    (h : (in_bounds c (cx + d.1) (cy + d.2) && !(s'.grid (cy + d.2).toNat (cx + d.1).toNat))
      = true) :
    spawnTry c cx cy d s' =
      { grid := gridSet s'.grid (cx + d.1).toNat (cy + d.2).toNat true
        grains := s'.grains ++ [⟨(cx + d.1).toNat, (cy + d.2).toNat⟩]
        region := rectExtend s'.region (cx + d.1).toNat (cy + d.2).toNat } := by
  simp only [spawnTry]
  rw [if_pos h]

theorem spawnTry_neg (c : Cfg) (cx cy : Int) (d : Int × Int) (s' : SimState)
    (h : (in_bounds c (cx + d.1) (cy + d.2) && !(s'.grid (cy + d.2).toNat (cx + d.1).toNat))
      = false) :
    spawnTry c cx cy d s' = s' := by
  simp only [spawnTry]
  rw [if_neg (by simp [h])]

theorem spawnTry_length (c : Cfg) (cx cy : Int) (d : Int × Int) (s' : SimState) :
    (spawnTry c cx cy d s').grains.length ≤ s'.grains.length + 1 := by
  simp only [spawnTry]
  split
  · simp
  · exact Nat.le_succ _

theorem spawnTry_mem (c : Cfg) (cx cy : Int) (d : Int × Int) (s' : SimState) :
    ∀ g ∈ (spawnTry c cx cy d s').grains, g ∈ s'.grains ∨ (g.x < c.W ∧ g.y < c.H) := by
  simp only [spawnTry]
  split
  next h =>
    rw [Bool.and_eq_true] at h
    have hb := h.1
    unfold in_bounds at hb
    simp only [Bool.and_eq_true, decide_eq_true_eq] at hb
    intro g hg
    rcases List.mem_append.1 hg with hg | hg
    · exact Or.inl hg
    · rcases List.mem_singleton.1 hg with rfl
      exact Or.inr ⟨show (cx + d.1).toNat < c.W by omega, show (cy + d.2).toNat < c.H by omega⟩
  next => exact fun g hg => Or.inl hg

theorem spawnLoop_length (c : Cfg) (stream : Nat → Nat) (fuel : Nat) (cx cy : Int) :
    ∀ (n : Nat) (s : SimState) (i : Nat),
      (spawnLoop c stream fuel cx cy n s i).1.grains.length ≤ s.grains.length + n
  | 0, _, _ => Nat.le_refl _
  | n+1, s, i => by
      rw [spawnLoop]
      rcases h : rejSample c stream fuel i with ⟨_ | d, i'⟩
      · exact Nat.le_trans (spawnLoop_length c stream fuel cx cy n s i')
          (Nat.add_le_add_left (Nat.le_succ n) _)
      · refine Nat.le_trans (spawnLoop_length c stream fuel cx cy n _ i') ?_
        have := spawnTry_length c cx cy d s
        omega

theorem spawnLoop_mem (c : Cfg) (stream : Nat → Nat) (fuel : Nat) (cx cy : Int) :
    ∀ (n : Nat) (s : SimState) (i : Nat),
      ∀ g ∈ (spawnLoop c stream fuel cx cy n s i).1.grains,
        g ∈ s.grains ∨ (g.x < c.W ∧ g.y < c.H)
  | 0, _, _ => fun _ hg => Or.inl hg
  | n+1, s, i => by
      rw [spawnLoop]
      rcases h : rejSample c stream fuel i with ⟨_ | d, i'⟩
      · exact spawnLoop_mem c stream fuel cx cy n s i'
      · intro g hg
        rcases spawnLoop_mem c stream fuel cx cy n _ i' g hg with hg' | hb
        · exact spawnTry_mem c cx cy d s g hg'
        · exact Or.inr hb

/-- C9: per spawner invocation, at most `TRIES_PER_FRAME` grains are added
and every grain not already present is in bounds; per attempt, a candidate
that is out of bounds or occupied is silently dropped with the state
unchanged (no retry), and a valid candidate inserts exactly one grain at the
candidate cell, marks it occupied and expands the active region to it. -/
theorem sandfall_C9 (c : Cfg) (stream : Nat → Nat) (fuel : Nat) (cx cy : Int) (s : SimState)
    (i : Nat) : C9Concl c stream fuel cx cy s i :=
  ⟨spawnLoop_length c stream fuel cx cy c.triesPerFrame s i,
   spawnLoop_mem c stream fuel cx cy c.triesPerFrame s i,
   fun d s' h => spawnTry_pos c cx cy d s' h,
   fun d s' h => spawnTry_neg c cx cy d s' h⟩

/-- Witness for C9 at a concrete input. -/
theorem sandfall_C9_witness : C9Concl wCfg (fun _ => 1) 2 1 1 wSt 0 :=
  sandfall_C9 wCfg (fun _ => 1) 2 1 1 wSt 0

/-! ## Rejection sampling (C10) -/

/-- A stream whose first draw pair is rejected and whose second is accepted
(for the C10 witness). -/
def w10s : Nat → Nat := fun n => if n < 2 then 2 else 1

/-- C10: the rejection loop of each spawn attempt keeps redrawing `(dx, dy)`
from the bounding square while `dx^2 + dy^2 > r^2`; as soon as the stream
offers a disc-valid pair (here: the first valid pair, at pair-index `j0`)
the loop terminates with that single accepted offset, having consumed the
`j0` rejected pairs plus the accepted one (two `uni()` draws per pair), and
the accepted offset satisfies the disc constraint. -/
theorem sandfall_C10 (c : Cfg) (stream : Nat → Nat) (i j0 : Nat)
    (hv : discOk c (stream (i + 2*j0)) (stream (i + 2*j0 + 1)) = true)
    (hmin : ∀ j, j < j0 → discOk c (stream (i + 2*j)) (stream (i + 2*j + 1)) = false)
    (fuel : Nat) (hf : j0 < fuel) :
    rejSample c stream fuel i =
      (some (((stream (i + 2*j0) : Nat) : Int) - (c.spawnRadius : Int),
             ((stream (i + 2*j0 + 1) : Nat) : Int) - (c.spawnRadius : Int)),
       i + 2*(j0 + 1)) ∧
    (((stream (i + 2*j0) : Nat) : Int) - (c.spawnRadius : Int)) *
        (((stream (i + 2*j0) : Nat) : Int) - (c.spawnRadius : Int)) +
      (((stream (i + 2*j0 + 1) : Nat) : Int) - (c.spawnRadius : Int)) *
        (((stream (i + 2*j0 + 1) : Nat) : Int) - (c.spawnRadius : Int)) ≤
      ((c.spawnRadius * c.spawnRadius : Nat) : Int) := by
  induction j0 generalizing i fuel with
  | zero =>
      cases fuel with
      | zero => exact absurd hf (Nat.lt_irrefl 0)
      | succ f =>
          unfold discOk at hv
          rw [decide_eq_true_eq] at hv
          simp only [Nat.mul_zero, Nat.add_zero] at hv ⊢
          refine ⟨?_, hv⟩
          rw [rejSample, if_neg (not_lt.mpr hv)]
  | succ m ih =>
      cases fuel with
      | zero => exact absurd hf (Nat.not_lt_zero _)
      | succ f =>
          have h0 := hmin 0 (Nat.succ_pos m)
          unfold discOk at h0
          simp only [Nat.mul_zero, Nat.add_zero, decide_eq_false_iff_not, not_le] at h0
          have e1 : i + 2 + 2*m = i + 2*(m+1) := by ring
          have hv' : discOk c (stream (i + 2 + 2*m)) (stream (i + 2 + 2*m + 1)) = true := by
            rw [e1]; exact hv
          have hmin' : ∀ j, j < m →
              discOk c (stream (i + 2 + 2*j)) (stream (i + 2 + 2*j + 1)) = false := by
            intro j hj
            have e3 : i + 2 + 2*j = i + 2*(j+1) := by ring
            rw [e3]
            exact hmin (j+1) (Nat.succ_lt_succ hj)
          have hrec := ih (i + 2) hv' hmin' f (Nat.lt_of_succ_lt_succ hf)
          rw [rejSample, if_pos h0]
          rw [e1] at hrec
          refine ⟨?_, hrec.2⟩
          rw [hrec.1]
          have e5 : i + 2 + 2*(m+1) = i + 2*(m+1+1) := by ring
          rw [e5]

/-- Witness for C10 at a concrete input: the stream `w10s` rejects its first
pair `(2,2) -> dx = dy = 1` (since `1+1 > 1`) and accepts the second
`(1,1) -> dx = dy = 0`, so the loop stops after consuming four draws. -/
theorem sandfall_C10_witness :
    rejSample wCfg w10s 5 0 =
      (some (((w10s (0 + 2*1) : Nat) : Int) - (wCfg.spawnRadius : Int),
             ((w10s (0 + 2*1 + 1) : Nat) : Int) - (wCfg.spawnRadius : Int)),
       0 + 2*(1 + 1)) ∧
    (((w10s (0 + 2*1) : Nat) : Int) - (wCfg.spawnRadius : Int)) *
        (((w10s (0 + 2*1) : Nat) : Int) - (wCfg.spawnRadius : Int)) +
      (((w10s (0 + 2*1 + 1) : Nat) : Int) - (wCfg.spawnRadius : Int)) *
        (((w10s (0 + 2*1 + 1) : Nat) : Int) - (wCfg.spawnRadius : Int)) ≤
      ((wCfg.spawnRadius * wCfg.spawnRadius : Nat) : Int) :=
  sandfall_C10 wCfg w10s 0 1 (by decide) (by decide) 5 (by decide)

/-! ## Accumulator characterization (C4) -/

theorem physRun_fst (c : Cfg) (R : Rect) :
    ∀ (n : Nat) (ps : PhysState), (physRun c R n ps).1 = physicsAux c R n ps
  | 0, _ => rfl
  | n+1, ps => by
      rw [physRun, physicsAux]
      exact physRun_fst c R n (stepIdx c R ps n)

theorem stepIdx_acc (c : Cfg) (R : Rect) (ps : PhysState) (k : Nat) :
    (stepIdx c R ps k).acc = foldExtend ps.acc (movedAt c R ps k) := by
  simp only [stepIdx, movedAt]
  split
  · rfl
  · split
    · rfl
    · rfl

theorem physicsAux_acc (c : Cfg) (R : Rect) :
    ∀ (n : Nat) (ps : PhysState),
      (physicsAux c R n ps).acc = foldExtend ps.acc (physRun c R n ps).2
  | 0, _ => rfl
  | n+1, ps => by
      simp only [physicsAux, physRun]
      rw [physicsAux_acc c R n (stepIdx c R ps n), stepIdx_acc c R ps n]
      simp only [foldExtend, List.foldl_append]

theorem movedAt_bounds (c : Cfg) (R : Rect) (ps : PhysState) (k : Nat) :
    ∀ p ∈ movedAt c R ps k, p.1 < c.W ∧ p.2 < c.H := by
  simp only [movedAt]
  split
  · intro p hp
    exact absurd hp (List.not_mem_nil p)
  · split
    · intro p hp
      exact absurd hp (List.not_mem_nil p)
    next t heq =>
      intro p hp
      rcases List.mem_singleton.1 hp with rfl
      have hav := List.find?_some heq
      unfold avail in_bounds at hav
      simp only [Bool.and_eq_true, decide_eq_true_eq] at hav
      exact ⟨show t.1.toNat < c.W by omega, show t.2.toNat < c.H by omega⟩

theorem physRun_bounds (c : Cfg) (R : Rect) :
    ∀ (n : Nat) (ps : PhysState), ∀ p ∈ (physRun c R n ps).2, p.1 < c.W ∧ p.2 < c.H
  | 0, _ => fun p hp => absurd hp (List.not_mem_nil p)
  | n+1, ps => by
      simp only [physRun]
      intro p hp
      rcases List.mem_append.1 hp with hp | hp
      · exact movedAt_bounds c R ps n p hp
      · exact physRun_bounds c R n (stepIdx c R ps n) p hp

theorem foldExtend_min_x : ∀ (l : List (Nat × Nat)) (r : Rect),
    (foldExtend r l).min_x = l.foldl (fun m p => if p.1 < m then p.1 else m) r.min_x
  | [], _ => rfl
  | p :: l, r => foldExtend_min_x l (rectExtend r p.1 p.2)

theorem foldExtend_max_x : ∀ (l : List (Nat × Nat)) (r : Rect),
    (foldExtend r l).max_x = l.foldl (fun m p => if p.1 > m then p.1 else m) r.max_x
  | [], _ => rfl
  | p :: l, r => foldExtend_max_x l (rectExtend r p.1 p.2)

theorem foldExtend_min_y : ∀ (l : List (Nat × Nat)) (r : Rect),
    (foldExtend r l).min_y = l.foldl (fun m p => if p.2 < m then p.2 else m) r.min_y
  | [], _ => rfl
  | p :: l, r => foldExtend_min_y l (rectExtend r p.1 p.2)

theorem foldExtend_max_y : ∀ (l : List (Nat × Nat)) (r : Rect),
    (foldExtend r l).max_y = l.foldl (fun m p => if p.2 > m then p.2 else m) r.max_y
  | [], _ => rfl
  | p :: l, r => foldExtend_max_y l (rectExtend r p.1 p.2)

theorem foldl_min_le_init : ∀ (l : List Nat) (a : Nat),
    l.foldl (fun m z => if z < m then z else m) a ≤ a
  | [], a => Nat.le_refl a
  | z :: l, a => Nat.le_trans (foldl_min_le_init l _) (by dsimp only; split <;> omega)

theorem foldl_min_le_mem : ∀ (l : List Nat) (a z : Nat), z ∈ l →
    l.foldl (fun m w => if w < m then w else m) a ≤ z
  | [], _, _, h => absurd h (List.not_mem_nil _)
  | w :: l, a, z, h => by
      rcases List.mem_cons.1 h with rfl | h
      · exact Nat.le_trans (foldl_min_le_init l _) (by dsimp only; split <;> omega)
      · exact foldl_min_le_mem l _ z h

theorem foldl_min_mem_or_init : ∀ (l : List Nat) (a : Nat),
    l.foldl (fun m z => if z < m then z else m) a = a ∨
      l.foldl (fun m z => if z < m then z else m) a ∈ l
  | [], a => Or.inl rfl
  | z :: l, a => by
      rcases foldl_min_mem_or_init l (if z < a then z else a) with h | h
      · rw [List.foldl_cons]
        rw [h]
        split
        · exact Or.inr (List.mem_cons_self _ _)
        · exact Or.inl rfl
      · exact Or.inr (List.mem_cons_of_mem _ h)

theorem foldl_min_isMin (l : List Nat) (a : Nat) (hne : l ≠ [])
    (hall : ∀ z ∈ l, z ≤ a) : IsMinOf l (l.foldl (fun m z => if z < m then z else m) a) := by
  refine ⟨?_, fun z hz => foldl_min_le_mem l a z hz⟩
  rcases foldl_min_mem_or_init l a with h | h
  · rcases List.exists_mem_of_ne_nil l hne with ⟨z, hz⟩
    have h1 := foldl_min_le_mem l a z hz
    have h2 := hall z hz
    have : z = l.foldl (fun m z => if z < m then z else m) a := by omega
    exact this ▸ hz
  · exact h

theorem foldl_max_ge_init : ∀ (l : List Nat) (a : Nat),
    a ≤ l.foldl (fun m z => if z > m then z else m) a
  | [], a => Nat.le_refl a
  | z :: l, a => Nat.le_trans (by dsimp only; split <;> omega) (foldl_max_ge_init l _)

theorem foldl_max_ge_mem : ∀ (l : List Nat) (a z : Nat), z ∈ l →
    z ≤ l.foldl (fun m w => if w > m then w else m) a
  | [], _, _, h => absurd h (List.not_mem_nil _)
  | w :: l, a, z, h => by
      rcases List.mem_cons.1 h with rfl | h
      · exact Nat.le_trans (by dsimp only; split <;> omega) (foldl_max_ge_init l _)
      · exact foldl_max_ge_mem l _ z h

theorem foldl_max_mem_or_init : ∀ (l : List Nat) (a : Nat),
    l.foldl (fun m z => if z > m then z else m) a = a ∨
      l.foldl (fun m z => if z > m then z else m) a ∈ l
  | [], a => Or.inl rfl
  | z :: l, a => by
      rcases foldl_max_mem_or_init l (if z > a then z else a) with h | h
      · rw [List.foldl_cons]
        rw [h]
        split
        · exact Or.inr (List.mem_cons_self _ _)
        · exact Or.inl rfl
      · exact Or.inr (List.mem_cons_of_mem _ h)

theorem foldl_max_isMax (l : List Nat) (a : Nat) (hne : l ≠ [])
    (hall : ∀ z ∈ l, a ≤ z) : IsMaxOf l (l.foldl (fun m z => if z > m then z else m) a) := by
  refine ⟨?_, fun z hz => foldl_max_ge_mem l a z hz⟩
  rcases foldl_max_mem_or_init l a with h | h
  · rcases List.exists_mem_of_ne_nil l hne with ⟨z, hz⟩
    have h1 := foldl_max_ge_mem l a z hz
    have h2 := hall z hz
    have : z = l.foldl (fun m z => if z > m then z else m) a := by omega
    exact this ▸ hz
  · exact h

/-- C4: after the settling pass, if at least one particle moved (the recorded
moved-coordinate list is non-empty) the active region becomes the bounding
box of the moved particles' new coordinates expanded by exactly 2 in every
direction (saturating at 0) and clamped to `[0, W-1] x [0, H-1]`; if no
particle moved, the active region is left unchanged. -/
theorem sandfall_C4 (c : Cfg) (s : SimState) (hW : 0 < c.W) : C4Concl c s := by
  have hacc : (physicsAux c s.region s.grains.length (initPhys c s)).acc =
      foldExtend ⟨c.W, 0, c.H, 0⟩ (physMoves c s) :=
    physicsAux_acc c s.region s.grains.length (initPhys c s)
  constructor
  · intro hmv
    rw [hmv] at hacc
    simp only [physicsPhase]
    rw [if_neg]
    rw [hacc]
    simp only [foldExtend, List.foldl_nil]
    intro hcond
    omega
  · intro hmv
    have hbnd : ∀ p ∈ physMoves c s, p.1 < c.W ∧ p.2 < c.H :=
      physRun_bounds c s.region s.grains.length (initPhys c s)
    have hnex : (physMoves c s).map Prod.fst ≠ [] := by
      intro h
      exact hmv (List.map_eq_nil_iff.1 h)
    have hney : (physMoves c s).map Prod.snd ≠ [] := by
      intro h
      exact hmv (List.map_eq_nil_iff.1 h)
    have hminx := foldl_min_isMin ((physMoves c s).map Prod.fst) c.W hnex
      (by intro z hz
          rcases List.mem_map.1 hz with ⟨p, hp, rfl⟩
          exact Nat.le_of_lt (hbnd p hp).1)
    have hmaxx := foldl_max_isMax ((physMoves c s).map Prod.fst) 0 hnex
      (fun z _ => Nat.zero_le z)
    have hminy := foldl_min_isMin ((physMoves c s).map Prod.snd) c.H hney
      (by intro z hz
          rcases List.mem_map.1 hz with ⟨p, hp, rfl⟩
          exact Nat.le_of_lt (hbnd p hp).2)
    have hmaxy := foldl_max_isMax ((physMoves c s).map Prod.snd) 0 hney
      (fun z _ => Nat.zero_le z)
    have eminx : (foldExtend ⟨c.W, 0, c.H, 0⟩ (physMoves c s)).min_x =
        ((physMoves c s).map Prod.fst).foldl (fun m z => if z < m then z else m) c.W := by
      rw [foldExtend_min_x, List.foldl_map]
    have emaxx : (foldExtend ⟨c.W, 0, c.H, 0⟩ (physMoves c s)).max_x =
        ((physMoves c s).map Prod.fst).foldl (fun m z => if z > m then z else m) 0 := by
      rw [foldExtend_max_x, List.foldl_map]
    have eminy : (foldExtend ⟨c.W, 0, c.H, 0⟩ (physMoves c s)).min_y =
        ((physMoves c s).map Prod.snd).foldl (fun m z => if z < m then z else m) c.H := by
      rw [foldExtend_min_y, List.foldl_map]
    have emaxy : (foldExtend ⟨c.W, 0, c.H, 0⟩ (physMoves c s)).max_y =
        ((physMoves c s).map Prod.snd).foldl (fun m z => if z > m then z else m) 0 := by
      rw [foldExtend_max_y, List.foldl_map]
    refine ⟨(foldExtend ⟨c.W, 0, c.H, 0⟩ (physMoves c s)).min_x,
            (foldExtend ⟨c.W, 0, c.H, 0⟩ (physMoves c s)).max_x,
            (foldExtend ⟨c.W, 0, c.H, 0⟩ (physMoves c s)).min_y,
            (foldExtend ⟨c.W, 0, c.H, 0⟩ (physMoves c s)).max_y,
            eminx ▸ hminx, emaxx ▸ hmaxx, eminy ▸ hminy, emaxy ▸ hmaxy, ?_⟩
    simp only [physicsPhase]
    rw [if_pos]
    · rw [hacc]
    · constructor
      · rcases List.exists_mem_of_ne_nil _ hnex with ⟨z, hz⟩
        have h1 := (eminx ▸ hminx : IsMinOf _ _).2 z hz
        have h2 := (emaxx ▸ hmaxx : IsMaxOf _ _).2 z hz
        rw [hacc]
        omega
      · rcases List.exists_mem_of_ne_nil _ hney with ⟨z, hz⟩
        have h1 := (eminy ▸ hminy : IsMinOf _ _).2 z hz
        have h2 := (emaxy ▸ hmaxy : IsMaxOf _ _).2 z hz
        rw [hacc]
        omega

/-- Witness for C4 at a concrete input: the grain at `(1, 1)` falls to
`(1, 2)`, so the region becomes the expanded clamped box around it. -/
theorem sandfall_C4_witness : C4Concl wCfg wSt := sandfall_C4 wCfg wSt (by decide)

/-! ## Bounds containment (C7) -/

theorem stepIdx_bounds (c : Cfg) (R : Rect) (ps : PhysState) (k : Nat)
    (h : InBoundsAll c ps.grains) : InBoundsAll c (stepIdx c R ps k).grains := by
  simp only [stepIdx]
  split
  · exact h
  · split
    · exact h
    next t heq =>
      intro g hg
      rcases List.mem_or_eq_of_mem_set hg with hg | rfl
      · exact h g hg
      · have hav := List.find?_some heq
        unfold avail in_bounds at hav
        simp only [Bool.and_eq_true, decide_eq_true_eq] at hav
        exact ⟨show t.1.toNat < c.W by omega, show t.2.toNat < c.H by omega⟩

theorem physicsAux_bounds (c : Cfg) (R : Rect) :
    ∀ (n : Nat) (ps : PhysState), InBoundsAll c ps.grains →
      InBoundsAll c (physicsAux c R n ps).grains
  | 0, _, h => h
  | n+1, ps, h => physicsAux_bounds c R n (stepIdx c R ps n) (stepIdx_bounds c R ps n h)

theorem physicsPhase_bounds (c : Cfg) (s : SimState) (h : InBoundsAll c s.grains) :
    InBoundsAll c (physicsPhase c s).grains := by
  rw [physicsPhase_grains]
  exact physicsAux_bounds c s.region s.grains.length (initPhys c s) h

theorem spawnLoop_bounds (c : Cfg) (stream : Nat → Nat) (fuel : Nat) (cx cy : Int)
    (n : Nat) (s : SimState) (i : Nat) (h : InBoundsAll c s.grains) :
    InBoundsAll c (spawnLoop c stream fuel cx cy n s i).1.grains := by
  intro g hg
  rcases spawnLoop_mem c stream fuel cx cy n s i g hg with hg' | hb
  · exact h g hg'
  · exact hb

theorem phase1_bounds (c : Cfg) (stream : Nat → Nat) (fuel : Nat) (inp : Input) (s : SimState)
    (i : Nat) (h : InBoundsAll c s.grains) :
    InBoundsAll c (phase1 c stream fuel inp s i).1.grains := by
  unfold phase1
  rcases inp.spawnAt with _ | p
  · exact h
  · exact spawnLoop_bounds c stream fuel p.1 p.2 c.triesPerFrame s i h

theorem drainPhase_bounds (c : Cfg) (s : SimState) (h : InBoundsAll c s.grains) :
    InBoundsAll c (drainPhase c s).grains := by
  rw [drainPhase_grains]
  intro g hg
  exact h g (List.mem_of_mem_filter hg)

theorem phase3_bounds (c : Cfg) (inp : Input) (s : SimState) (h : InBoundsAll c s.grains) :
    InBoundsAll c (phase3 c inp s).grains := by
  unfold phase3
  split
  · exact drainPhase_bounds c s h
  · exact h

/-- C7: if every grain is in bounds, then after each phase of a frame
(spawn, settle, drain) every grain is still within `[0, W) x [0, H)`: the
spawner only inserts in-bounds candidates and the settling step only moves
to in-bounds targets. -/
theorem sandfall_C7 (c : Cfg) (stream : Nat → Nat) (fuel : Nat) (inp : Input) (s : SimState)
    (i : Nat) (h : InBoundsAll c s.grains) :
    InBoundsAll c (phase1 c stream fuel inp s i).1.grains ∧
    InBoundsAll c (physicsPhase c (phase1 c stream fuel inp s i).1).grains ∧
    InBoundsAll c (phase3 c inp (physicsPhase c (phase1 c stream fuel inp s i).1)).grains := by
  have h1 := phase1_bounds c stream fuel inp s i h
  have h2 := physicsPhase_bounds c (phase1 c stream fuel inp s i).1 h1
  exact ⟨h1, h2, phase3_bounds c inp _ h2⟩

/-- Witness for C7 at a concrete input. -/
theorem sandfall_C7_witness :
    InBoundsAll wCfg (phase1 wCfg (fun _ => 1) 2 ⟨some (1, 1), true⟩ wSt 0).1.grains ∧
    InBoundsAll wCfg
      (physicsPhase wCfg (phase1 wCfg (fun _ => 1) 2 ⟨some (1, 1), true⟩ wSt 0).1).grains ∧
    InBoundsAll wCfg (phase3 wCfg ⟨some (1, 1), true⟩
      (physicsPhase wCfg (phase1 wCfg (fun _ => 1) 2 ⟨some (1, 1), true⟩ wSt 0).1)).grains :=
  sandfall_C7 wCfg (fun _ => 1) 2 ⟨some (1, 1), true⟩ wSt 0 (by decide)

/-! ## Determinism (C8) -/

/-- C8: the per-frame step is a pure function of the state, the seeded
random stream and the per-frame inputs, so two runs with the same seed
(stream) and the same input sequence have identical grain lists (same
coordinates, same order) after every frame. -/
theorem sandfall_C8 (c : Cfg) (stream1 stream2 : Nat → Nat) (fuel : Nat)
    (inputs1 inputs2 : List Input) (k : Nat) (hs : stream1 = stream2)
    (hi : inputs1 = inputs2) :
    (run c stream1 fuel (inputs1.take k) (initState c) 0).1.grains =
      (run c stream2 fuel (inputs2.take k) (initState c) 0).1.grains := by
  subst hs
  subst hi
  rfl

/-- Witness for C8 at a concrete input. -/
theorem sandfall_C8_witness :
    (run wCfg (fun _ => 1) 2 ([⟨some (1, 1), false⟩, ⟨none, true⟩].take 2)
        (initState wCfg) 0).1.grains =
      (run wCfg (fun _ => 1) 2 ([⟨some (1, 1), false⟩, ⟨none, true⟩].take 2)
        (initState wCfg) 0).1.grains :=
  sandfall_C8 wCfg (fun _ => 1) (fun _ => 1) 2 [⟨some (1, 1), false⟩, ⟨none, true⟩]
    [⟨some (1, 1), false⟩, ⟨none, true⟩] 2 rfl rfl

/-! ## Grid/Particle Set consistency (C1) -/

theorem gridSet_self (g : GridT) (x y : Nat) (v : Bool) : gridSet g x y v y x = v := by
  simp [gridSet]

theorem gridSet_other (g : GridT) (x y : Nat) (v : Bool) {a b : Nat}
    (h : ¬(b = y ∧ a = x)) : gridSet g x y v b a = g b a := by
  simp only [gridSet]
  exact if_neg h

theorem mem_append_singleton {α : Type} {l : List α} {a b : α} :
    a ∈ l ++ [b] ↔ a ∈ l ∨ a = b := by
  simp

theorem countP_eq_count (x y : Nat) (gs : List Grain) :
    gs.countP (fun g => g.x == x && g.y == y) = gs.count (⟨x, y⟩ : Grain) := by
  unfold List.count
  apply List.countP_congr
  intro g _
  cases g with
  | mk gx gy => simp [Bool.and_eq_true, beq_iff_eq, Grain.mk.injEq]

theorem stateInv_gridCountOk (c : Cfg) (s : SimState) (h : StateInv c s) : gridCountOk c s := by
  obtain ⟨hc, hnd, _⟩ := h
  refine ⟨?_, hnd⟩
  intro x hx y hy
  rw [countP_eq_count, hc x hx y hy]
  constructor
  · exact fun hm => List.count_eq_one_of_mem hnd hm
  · intro h1
    exact List.count_pos_iff.1 (by omega)

theorem spawnTry_inv (c : Cfg) (cx cy : Int) (d : Int × Int) (s : SimState)
    (h : StateInv c s) : StateInv c (spawnTry c cx cy d s) := by
  obtain ⟨hc, hnd, hb⟩ := h
  simp only [spawnTry]
  split
  next hcond =>
    rw [Bool.and_eq_true] at hcond
    obtain ⟨hib, hfree⟩ := hcond
    rw [Bool.not_eq_true'] at hfree
    unfold in_bounds at hib
    simp only [Bool.and_eq_true, decide_eq_true_eq] at hib
    have hxW : (cx + d.1).toNat < c.W := by omega
    have hyH : (cy + d.2).toNat < c.H := by omega
    have hnm : (⟨(cx + d.1).toNat, (cy + d.2).toNat⟩ : Grain) ∉ s.grains := by
      intro hm
      have hg := (hc _ hxW _ hyH).2 hm
      rw [hfree] at hg
      exact Bool.false_ne_true hg
    refine ⟨?_, ?_, ?_⟩
    · intro a ha b hb'
      dsimp only
      by_cases hab : b = (cy + d.2).toNat ∧ a = (cx + d.1).toNat
      · obtain ⟨rfl, rfl⟩ := hab
        constructor
        · intro _
          exact mem_append_singleton.2 (Or.inr rfl)
        · intro _
          exact gridSet_self _ _ _ _
      · rw [gridSet_other _ _ _ _ hab, hc a ha b hb', mem_append_singleton]
        constructor
        · exact Or.inl
        · rintro (hm | he)
          · exact hm
          · injection he with h1 h2
            exact absurd ⟨h2, h1⟩ hab
    · rw [List.nodup_append]
      refine ⟨hnd, List.nodup_singleton _, ?_⟩
      intro g hg hgs
      rcases List.mem_singleton.1 hgs with rfl
      exact hnm hg
    · intro g hg
      rcases mem_append_singleton.1 hg with hg | rfl
      · exact hb g hg
      · exact ⟨hxW, hyH⟩
  next => exact ⟨hc, hnd, hb⟩

theorem stepIdx_inv (c : Cfg) (R : Rect) (ps : PhysState) (k : Nat)
    (hk : k < ps.grains.length) (h : PhysInv c ps) : PhysInv c (stepIdx c R ps k) := by
  obtain ⟨hc, hnd, hb⟩ := h
  simp only [stepIdx]
  split
  · exact ⟨hc, hnd, hb⟩
  · split
    · exact ⟨hc, hnd, hb⟩
    next t heq =>
      have hgk : ps.grains.getD k ⟨0, 0⟩ = ps.grains[k] := getD_eq_getElem hk _
      have hgmem : ps.grains.getD k ⟨0, 0⟩ ∈ ps.grains := by
        rw [hgk]
        exact List.getElem_mem hk
      have hgb := hb _ hgmem
      have htmem := List.mem_of_find?_eq_some heq
      have hav := List.find?_some heq
      have ht2 : t.2 = ((ps.grains.getD k ⟨0, 0⟩).y : Int) + 1 := by
        simp only [targets, List.mem_cons, List.not_mem_nil, or_false] at htmem
        rcases htmem with rfl | rfl | rfl <;> rfl
      unfold avail in_bounds at hav
      simp only [Bool.and_eq_true, decide_eq_true_eq, Bool.not_eq_true'] at hav
      have hfree : ps.grid t.2.toNat t.1.toNat = false := hav.2
      have hib := hav.1
      have hxW : t.1.toNat < c.W := by omega
      have hyH : t.2.toNat < c.H := by omega
      have hyeq : t.2.toNat = (ps.grains.getD k ⟨0, 0⟩).y + 1 := by
        rw [ht2]
        omega
      have hneq : (⟨t.1.toNat, t.2.toNat⟩ : Grain) ≠ ps.grains.getD k ⟨0, 0⟩ := by
        intro he
        have h2 := congrArg Grain.y he
        simp only at h2
        omega
      have hnm : (⟨t.1.toNat, t.2.toNat⟩ : Grain) ∉ ps.grains := by
        intro hm
        have hg := (hc _ hxW _ hyH).2 hm
        rw [hfree] at hg
        exact Bool.false_ne_true hg
      refine ⟨?_, List.Nodup.set hnd hnm, ?_⟩
      · intro a ha b hb'
        dsimp only
        by_cases hab1 : b = t.2.toNat ∧ a = t.1.toNat
        · obtain ⟨rfl, rfl⟩ := hab1
          constructor
          · intro _
            exact self_mem_set hk _
          · intro _
            exact gridSet_self _ _ _ _
        · by_cases hab2 : b = (ps.grains.getD k ⟨0, 0⟩).y ∧ a = (ps.grains.getD k ⟨0, 0⟩).x
          · obtain ⟨rfl, rfl⟩ := hab2
            rw [gridSet_other _ _ _ _ hab1, gridSet_self]
            constructor
            · intro hh
              exact absurd hh Bool.false_ne_true
            · intro hm
              exfalso
              have hnotin := getElem_not_mem_set hk hnd (a := ⟨t.1.toNat, t.2.toNat⟩)
                (by rw [← hgk]; exact hneq)
              apply hnotin
              rw [← hgk]
              exact hm
          · rw [gridSet_other _ _ _ _ hab1, gridSet_other _ _ _ _ hab2,
              hc a ha b hb']
            constructor
            · intro hm
              refine mem_set_of_ne_getElem hk hm ?_
              intro hk' he
              rw [← hgk] at he
              exact hab2 ⟨congrArg Grain.y he, congrArg Grain.x he⟩
            · intro hm
              rcases List.mem_or_eq_of_mem_set hm with hm | he
              · exact hm
              · exfalso
                exact hab1 ⟨congrArg Grain.y he, congrArg Grain.x he⟩
      · intro g hg
        rcases List.mem_or_eq_of_mem_set hg with hg | rfl
        · exact hb g hg
        · exact ⟨hxW, hyH⟩

theorem physicsAux_inv (c : Cfg) (R : Rect) :
    ∀ (n : Nat) (ps : PhysState), n ≤ ps.grains.length → PhysInv c ps →
      PhysInv c (physicsAux c R n ps)
  | 0, _, _, h => h
  | n+1, ps, hn, h =>
      physicsAux_inv c R n (stepIdx c R ps n)
        (by rw [stepIdx_length]; omega)
        (stepIdx_inv c R ps n (by omega) h)

theorem physicsPhase_grid (c : Cfg) (s : SimState) :
    (physicsPhase c s).grid = (physicsAux c s.region s.grains.length (initPhys c s)).grid := by
  simp only [physicsPhase]
  split <;> rfl

theorem physicsPhase_inv (c : Cfg) (s : SimState) (h : StateInv c s) :
    StateInv c (physicsPhase c s) := by
  have hinv := physicsAux_inv c s.region s.grains.length (initPhys c s) (Nat.le_refl _)
    ⟨h.1, h.2.1, h.2.2⟩
  exact ⟨by rw [physicsPhase_grid, physicsPhase_grains]; exact hinv.1,
         by rw [physicsPhase_grains]; exact hinv.2.1,
         by rw [physicsPhase_grains]; exact hinv.2.2⟩

theorem drainPhase_grid (c : Cfg) (s : SimState) :
    (drainPhase c s).grid = fun y x =>
      if y = c.drainY ∧ c.drainX - c.drainHalf ≤ x ∧
          x ≤ min (c.drainX + c.drainHalf) (c.W - 1) then false
      else s.grid y x := rfl

theorem drainPhase_inv (c : Cfg) (s : SimState) (h : StateInv c s) :
    StateInv c (drainPhase c s) := by
  obtain ⟨hc, hnd, hb⟩ := h
  refine ⟨?_, ?_, drainPhase_bounds c s hb⟩
  · intro a ha b hb'
    rw [drainPhase_grains, drainPhase_grid]
    dsimp only
    by_cases hcell : b = c.drainY ∧ c.drainX - c.drainHalf ≤ a ∧
        a ≤ min (c.drainX + c.drainHalf) (c.W - 1)
    · rw [if_pos hcell]
      constructor
      · intro hh
        exact absurd hh Bool.false_ne_true
      · intro hm
        have hf := List.of_mem_filter hm
        have hin : drainInside (c.drainX - c.drainHalf)
            (min (c.drainX + c.drainHalf) (c.W - 1)) c.drainY ⟨a, b⟩ = true := by
          simp [drainInside, hcell.1, hcell.2.1, hcell.2.2]
        rw [hin] at hf
        exact absurd hf (by simp)
    · rw [if_neg hcell]
      rw [hc a ha b hb']
      constructor
      · intro hm
        refine List.mem_filter.2 ⟨hm, ?_⟩
        simp only [drainInside, Bool.not_eq_true', Bool.and_eq_false_iff,
          decide_eq_false_iff_not]
        by_cases h1 : b = c.drainY
        · by_cases h2 : c.drainX - c.drainHalf ≤ a
          · exact Or.inr (fun h3 => hcell ⟨h1, h2, h3⟩)
          · exact Or.inl (Or.inr h2)
        · exact Or.inl (Or.inl h1)
      · intro hm
        exact List.mem_of_mem_filter hm
  · rw [drainPhase_grains]
    exact hnd.filter _

theorem spawnLoop_inv (c : Cfg) (stream : Nat → Nat) (fuel : Nat) (cx cy : Int) :
    ∀ (n : Nat) (s : SimState) (i : Nat), StateInv c s →
      StateInv c (spawnLoop c stream fuel cx cy n s i).1
  | 0, _, _, h => h
  | n+1, s, i, h => by
      rw [spawnLoop]
      rcases hr : rejSample c stream fuel i with ⟨_ | d, i'⟩
      · exact spawnLoop_inv c stream fuel cx cy n s i' h
      · exact spawnLoop_inv c stream fuel cx cy n _ i' (spawnTry_inv c cx cy d s h)

theorem phase1_inv (c : Cfg) (stream : Nat → Nat) (fuel : Nat) (inp : Input) (s : SimState)
    (i : Nat) (h : StateInv c s) : StateInv c (phase1 c stream fuel inp s i).1 := by
  unfold phase1
  rcases inp.spawnAt with _ | p
  · exact h
  · exact spawnLoop_inv c stream fuel p.1 p.2 c.triesPerFrame s i h

theorem phase3_inv (c : Cfg) (inp : Input) (s : SimState) (h : StateInv c s) :
    StateInv c (phase3 c inp s) := by
  unfold phase3
  split
  · exact drainPhase_inv c s h
  · exact h

/-- C1: starting from any state satisfying the joint Grid/Particle Set
invariant (which the initial empty state does), after every phase of a frame
— spawn, settle, drain — each in-bounds cell is marked occupied iff exactly
one particle occupies it, and no two particles share a cell; moreover the
invariant itself is re-established for the next frame. -/
theorem sandfall_C1 (c : Cfg) (stream : Nat → Nat) (fuel : Nat) (inp : Input) (s : SimState)
    (i : Nat) (h : StateInv c s) :
    gridCountOk c (phase1 c stream fuel inp s i).1 ∧
    gridCountOk c (physicsPhase c (phase1 c stream fuel inp s i).1) ∧
    gridCountOk c (phase3 c inp (physicsPhase c (phase1 c stream fuel inp s i).1)) ∧
    StateInv c (phase3 c inp (physicsPhase c (phase1 c stream fuel inp s i).1)) := by
  have h1 := phase1_inv c stream fuel inp s i h
  have h2 := physicsPhase_inv c (phase1 c stream fuel inp s i).1 h1
  have h3 := phase3_inv c inp _ h2
  exact ⟨stateInv_gridCountOk c _ h1, stateInv_gridCountOk c _ h2,
    stateInv_gridCountOk c _ h3, h3⟩

/-- Witness for C1 at a concrete input: a frame with a spawn at `(1, 1)` and
the drain active, from a consistent one-grain state. -/
theorem sandfall_C1_witness :
    gridCountOk wCfg (phase1 wCfg (fun _ => 1) 2 ⟨some (1, 1), true⟩ wSt 0).1 ∧
    gridCountOk wCfg
      (physicsPhase wCfg (phase1 wCfg (fun _ => 1) 2 ⟨some (1, 1), true⟩ wSt 0).1) ∧
    gridCountOk wCfg (phase3 wCfg ⟨some (1, 1), true⟩
      (physicsPhase wCfg (phase1 wCfg (fun _ => 1) 2 ⟨some (1, 1), true⟩ wSt 0).1)) ∧
    StateInv wCfg (phase3 wCfg ⟨some (1, 1), true⟩
      (physicsPhase wCfg (phase1 wCfg (fun _ => 1) 2 ⟨some (1, 1), true⟩ wSt 0).1)) :=
  sandfall_C1 wCfg (fun _ => 1) 2 ⟨some (1, 1), true⟩ wSt 0 (by decide)
